import Mathlib

/-!
Shallow embedding of the reputation-signal extraction engine and the
summary aggregation of the `reputation` repository
(`bot/services/reputation_detector.py`, `bot/services/reputation_fetcher.py`,
`bot/services/models.py`, `bot/database.py`).

Python strings are modelled as `List Char`.  `str.lower` is modelled
character-wise on the alphabets the engine works with (ASCII letters and
the Russian Cyrillic letters appearing in the keywords); regular-expression
matching is modelled by hand-written matchers that replicate the concrete
patterns of the source, with `re.finditer` / `re.search` scanning semantics.
-/

set_option maxRecDepth 10000

abbrev Str := List Char

/-- Lower-case table for the alphabets relevant to the engine: ASCII
`A`..`Z` and Cyrillic `А`..`Я` plus `Ё` (models Python `str.lower` on
these characters; all other characters are left unchanged). -/
def lowerPairs : List (Char × Char) :=
  [('A', 'a'), ('B', 'b'), ('C', 'c'), ('D', 'd'), ('E', 'e'), ('F', 'f'),
   ('G', 'g'), ('H', 'h'), ('I', 'i'), ('J', 'j'), ('K', 'k'), ('L', 'l'),
   ('M', 'm'), ('N', 'n'), ('O', 'o'), ('P', 'p'), ('Q', 'q'), ('R', 'r'),
   ('S', 's'), ('T', 't'), ('U', 'u'), ('V', 'v'), ('W', 'w'), ('X', 'x'),
   ('Y', 'y'), ('Z', 'z'),
   ('А', 'а'), ('Б', 'б'), ('В', 'в'), ('Г', 'г'), ('Д', 'д'), ('Е', 'е'),
   ('Ж', 'ж'), ('З', 'з'), ('И', 'и'), ('Й', 'й'), ('К', 'к'), ('Л', 'л'),
   ('М', 'м'), ('Н', 'н'), ('О', 'о'), ('П', 'п'), ('Р', 'р'), ('С', 'с'),
   ('Т', 'т'), ('У', 'у'), ('Ф', 'ф'), ('Х', 'х'), ('Ц', 'ц'), ('Ч', 'ч'),
   ('Ш', 'ш'), ('Щ', 'щ'), ('Ъ', 'ъ'), ('Ы', 'ы'), ('Ь', 'ь'), ('Э', 'э'),
   ('Ю', 'ю'), ('Я', 'я'), ('Ё', 'ё')]

/-- Look a character up in an upper→lower table; characters outside the
table are returned unchanged. -/
def tableLower : List (Char × Char) → Char → Char
  | [], c => c
  | (u, l) :: rest, c => if c = u then l else tableLower rest c

/-- Character-wise model of Python `str.lower` (see `lowerPairs`). -/
def pyCharLower (c : Char) : Char := tableLower lowerPairs c

/-- Model of Python `str.lower` on a whole string. -/
def pyLower (s : Str) : Str := s.map pyCharLower

/-- Model of the whitespace class `\s` (and of `str.strip`'s whitespace). -/
def isSpaceChar (c : Char) : Bool :=
  c = ' ' || c = '\t' || c = '\n' || c = '\r' || c = '\x0b' || c = '\x0c'

/-- A `+` or `-` character (the class `[+-]`). -/
def isSignChar (c : Char) : Bool := c = '+' || c = '-'

/-- Cyrillic letters used by the keyword alphabet. -/
def isCyrillicChar (c : Char) : Bool :=
  ('а' ≤ c && c ≤ 'я') || ('А' ≤ c && c ≤ 'Я') || c = 'ё' || c = 'Ё'

/-- Model of the word-character class `[\w\d_]` on the alphabets the
engine works with: ASCII alphanumerics, underscore, Cyrillic letters. -/
def isWordChar (c : Char) : Bool :=
  c.isAlphanum || c = '_' || isCyrillicChar c

/-- `bot/services/reputation_detector.py` line 56: `normalize_target`.
`raw.strip()`, drop one leading `@`, lower-case. -/
def pyStrip (cs : Str) : Str :=
  ((cs.dropWhile isSpaceChar).reverse.dropWhile isSpaceChar).reverse

def normalize_target (raw : Str) : Str :=
  let target := pyStrip raw
  let target := if target.head? = some '@' then target.tail else target
  pyLower target

def POSITIVE : Str := "positive".data
def NEGATIVE : Str := "negative".data

/-- `reputation_detector.py` line 63: `_resolve_sentiment`. -/
def _resolve_sentiment (sign : Str) : Str :=
  let plus_count := sign.count '+'
  let minus_count := sign.count '-'
  if plus_count ≥ minus_count then POSITIVE else NEGATIVE

/-- `reputation_detector.py` line 23: the trigger keywords
(`rep`, `реп`, `репутация`, `репу`). -/
def KEYWORDS : List Str :=
  ["rep".data, "реп".data, "репутация".data, "репу".data]

/-- Case-insensitive literal match of `pat` at the head of `cs`
(models `re.IGNORECASE` literal matching); returns the rest on success. -/
def ciDropLit : Str → Str → Option Str
  | [], cs => some cs
  | _ :: _, [] => none
  | p :: ps, c :: cs => if pyCharLower c = pyCharLower p then ciDropLit ps cs else none

/-- The word-boundary test `\b` placed after a word character: the next
character must be absent or a non-word character. -/
def wordBoundaryAfter (cs : Str) : Bool :=
  match cs with
  | [] => true
  | c :: _ => !isWordChar c

/-- Ordered alternation of keyword literals, each followed by `\b`
(models `(?:rep|реп|…)\b` with Python backtracking: an alternative whose
trailing boundary fails is abandoned in favour of the next one). -/
def matchKeywordIn : List Str → Str → Option Str
  | [], _ => none
  | a :: rest, cs =>
    match ciDropLit a cs with
    | some after => if wordBoundaryAfter after then some after else matchKeywordIn rest cs
    | none => matchKeywordIn rest cs

/-- `(?:rep|реп)` in `RE_PATTERNS[0]`. -/
def kwShort : List Str := ["rep".data, "реп".data]

/-- `(?:rep|реп|репу|репутац(?:ию|ия))` flattened in source order
(`RE_PATTERNS[1]`, `SIGN_ONLY_PATTERN`, `TOKEN_PATTERN`). -/
def kwFull : List Str :=
  ["rep".data, "реп".data, "репу".data, "репутацию".data, "репутация".data]

/-- `(?:репу|репутац(?:ию|ия))` flattened in source order (`RE_PATTERNS[2]`). -/
def kwExtended : List Str := ["репу".data, "репутацию".data, "репутация".data]

/-- Greedy `[+-]+`: the maximal non-empty run of sign characters.
(Backtracking to a shorter run can never succeed in the source patterns,
since whatever follows a sign run never matches `+`/`-`.) -/
def matchSign (cs : Str) : Option (Str × Str) :=
  let p := cs.span isSignChar
  if p.1 = [] then none else some p

/-- Greedy `\s*`. -/
def skipSpaces (cs : Str) : Str := cs.dropWhile isSpaceChar

/-- Greedy `@?[\w\d_]{3,64}`: the raw captured target (including a
leading `@` when taken) and the rest of the input. -/
def matchTargetTok (cs : Str) : Option (Str × Str) :=
  match cs with
  | '@' :: cs1 =>
    let p := cs1.span isWordChar
    if 3 ≤ p.1.length then some ('@' :: p.1.take 64, p.1.drop 64 ++ p.2) else none
  | _ =>
    let p := cs.span isWordChar
    if 3 ≤ p.1.length then some (p.1.take 64, p.1.drop 64 ++ p.2) else none

/-- Anchored attempt of `RE_PATTERNS[0]`:
`(?P<sign>[+-]+)\s*(?:rep|реп)\b\s*(?P<target>@?[\w\d_]{3,64})`;
yields ((sign, raw target), rest). -/
def matchP1At (cs : Str) : Option ((Str × Str) × Str) := do
  let (sign, r1) ← matchSign cs
  let r2 ← matchKeywordIn kwShort (skipSpaces r1)
  let (target, r3) ← matchTargetTok (skipSpaces r2)
  some ((sign, target), r3)

/-- Anchored attempt of `RE_PATTERNS[1]`:
`(?P<target>@?[\w\d_]{3,64})\s*(?P<sign>[+-]+)\s*(?:rep|реп|репу|репутац(?:ию|ия))\b`. -/
def matchP2At (cs : Str) : Option ((Str × Str) × Str) := do
  let (target, r1) ← matchTargetTok cs
  let (sign, r2) ← matchSign (skipSpaces r1)
  let r3 ← matchKeywordIn kwFull (skipSpaces r2)
  some ((sign, target), r3)

/-- Anchored attempt of `RE_PATTERNS[2]`:
`(?P<sign>[+-]+)\s*(?:репу|репутац(?:ию|ия))\b\s*(?P<target>@?[\w\d_]{3,64})`. -/
def matchP3At (cs : Str) : Option ((Str × Str) × Str) := do
  let (sign, r1) ← matchSign cs
  let r2 ← matchKeywordIn kwExtended (skipSpaces r1)
  let (target, r3) ← matchTargetTok (skipSpaces r2)
  some ((sign, target), r3)

/-- Anchored attempt of `SIGN_ONLY_PATTERN`:
`(?P<sign>[+-]+)\s*(?:rep|реп|репу|репутац(?:ию|ия))\b`; yields the sign group. -/
def matchSignOnlyAt (cs : Str) : Option (Str × Str) := do
  let (sign, r1) ← matchSign cs
  let r2 ← matchKeywordIn kwFull (skipSpaces r1)
  some (sign, r2)

/-- A token of `TOKEN_PATTERN`: a sign-run+keyword token (carrying the
sign group) or a bare `@mention` token (carrying the raw mention). -/
inductive RToken where
  | sign (s : Str)
  | mention (raw : Str)
  deriving DecidableEq

/-- Anchored attempt of `TOKEN_PATTERN` (sign alternative first, then
`(?P<mention>@[\w\d_]{3,64})`). -/
def matchTokenAt (cs : Str) : Option (RToken × Str) :=
  match matchSignOnlyAt cs with
  | some (sign, rest) => some (.sign sign, rest)
  | none =>
    match cs with
    | '@' :: cs1 =>
      let p := cs1.span isWordChar
      if 3 ≤ p.1.length then some (.mention ('@' :: p.1.take 64), p.1.drop 64 ++ p.2)
      else none
    | _ => none

/-- `re.finditer` scanning: try the anchored matcher at each position,
left to right; on success emit the match and continue right after it.
Fuelled by the input length (every anchored match consumes at least one
character, so the fuel never runs out early). -/
def finditerAux (matchAt : Str → Option (α × Str)) : Nat → Str → List α
  | 0, _ => []
  | _ + 1, [] => []
  | fuel + 1, c :: cs =>
    match matchAt (c :: cs) with
    | some (a, rest) => a :: finditerAux matchAt fuel rest
    | none => finditerAux matchAt fuel cs

def pyFinditer (matchAt : Str → Option (α × Str)) (cs : Str) : List α :=
  finditerAux matchAt cs.length cs

/-- `re.search`: first position where the anchored matcher succeeds. -/
def pySearch (matchAt : Str → Option (α × Str)) : Str → Option α
  | [] => none
  | c :: cs =>
    match matchAt (c :: cs) with
    | some (a, _) => some a
    | none => pySearch matchAt cs

/-- Is `pat` a prefix of `cs` (exact characters)? -/
def litAtHead : Str → Str → Bool
  | [], _ => true
  | _ :: _, [] => false
  | p :: ps, c :: cs => c = p && litAtHead ps cs

/-- Python substring containment `pat in hay`. -/
def strContains (hay pat : Str) : Bool :=
  match hay with
  | [] => pat = []
  | _ :: rest => litAtHead pat hay || strContains rest pat

/-- `reputation_detector.py` line 17: `ParsedReputation`. -/
structure ParsedReputation where
  target : Str
  sentiment : Str
  deriving DecidableEq

/-- The `OrderedDict` of `extract_reputation`, modelled as an association
list in insertion order. -/
abbrev SentMap := List (Str × Str)

/-- `dict.get`: the value stored at a key, if any. -/
def alGet : SentMap → Str → Option Str
  | [], _ => none
  | (k, v) :: rest, t => if k = t then some v else alGet rest t

/-- `OrderedDict.__setitem__`: update in place when the key exists
(keeping its position), otherwise append at the end. -/
def alSet : SentMap → Str → Str → SentMap
  | [], t, s => [(t, s)]
  | (k, v) :: rest, t, s => if k = t then (k, s) :: rest else (k, v) :: alSet rest t s

/-- `reputation_detector.py` line 82: the local `register` of
`extract_reputation` — skip when the stored sentiment equals the new
one, otherwise assign. -/
def register (m : SentMap) (target sentiment : Str) : SentMap :=
  if alGet m target = some sentiment then m else alSet m target sentiment

/-- Registration of one pattern match (`reputation_detector.py` lines
88–95): skip when the raw target is empty, else register the normalized
target with the resolved sentiment. -/
def registerMatch (m : SentMap) (r : Str × Str) : SentMap :=
  if r.2 = [] then m else register m (normalize_target r.2) (_resolve_sentiment r.1)

/-- The mutable state of the token-stream balancer
(`reputation_detector.py` lines 97–114). -/
structure BalState where
  sentiments : SentMap
  pending : List Str
  currentSign : Option Str
  deriving DecidableEq

/-- One iteration of the token loop of `extract_reputation`. -/
def balStep (st : BalState) (tok : RToken) : BalState :=
  match tok with
  | .sign s =>
    let sentiment := _resolve_sentiment s
    let m :=
      if st.pending = [] then st.sentiments
      else st.pending.foldl (fun m p => register m p sentiment) st.sentiments
    ⟨m, [], some sentiment⟩
  | .mention raw =>
    let mention := normalize_target raw
    match st.currentSign with
    | some sg => ⟨register st.sentiments mention sg, st.pending, st.currentSign⟩
    | none =>
      if mention ∈ st.pending then st
      else ⟨st.sentiments, st.pending ++ [mention], none⟩

/-- All matches of the three `RE_PATTERNS`, in pattern order then text
order (the nested `for` loops of lines 88–95). -/
def patternMatches (text : Str) : List (Str × Str) :=
  pyFinditer matchP1At text ++ pyFinditer matchP2At text ++ pyFinditer matchP3At text

/-- The tokens of `TOKEN_PATTERN.finditer(text)`. -/
def tokenize (text : Str) : List RToken := pyFinditer matchTokenAt text

/-- `reputation_detector.py` line 71: `extract_reputation`. -/
def extract_reputation (text : Str) : List ParsedReputation :=
  if text = [] then []
  else if !(KEYWORDS.any fun kw => strContains (pyLower text) kw) then []
  else
    let m0 := (patternMatches text).foldl registerMatch []
    let final := (tokenize text).foldl balStep ⟨m0, [], none⟩
    final.sentiments.map fun p => ⟨p.1, p.2⟩

/-- The slice of a Telegram user object the engine reads
(`from_user`, `reply_to_message.from_user`). -/
structure TgUser where
  id : Int
  username : Option Str
  is_bot : Bool
  deriving DecidableEq

/-- The slice of the replied-to message the engine reads. -/
structure TgReply where
  from_user : Option TgUser
  deriving DecidableEq

/-- The slice of an incoming message the engine reads: text/caption,
reply context, author, chat/message ids, attachment fields (modelled by
their presence/truthiness) and date (modelled as an abstract number). -/
structure TgMessage where
  text : Option Str
  caption : Option Str
  reply_to_message : Option TgReply
  from_user : Option TgUser
  chat_id : Int
  message_id : Int
  photo : Bool
  video : Bool
  document : Bool
  animation : Bool
  audio : Bool
  voice : Bool
  video_note : Bool
  date : Option Int
  deriving DecidableEq

/-- `bot/services/models.py` line 8: `ReputationEntry`. -/
structure ReputationEntry where
  target : Str
  chat_id : Int
  message_id : Int
  sentiment : Str
  has_photo : Bool
  has_media : Bool
  content : Str
  author_id : Option Int
  author_username : Option Str
  message_date : Option Int
  deriving DecidableEq

/-- Python `a or b` on an optional string (`None` and `""` are falsy). -/
def optStrOr (a : Option Str) (b : Str) : Str :=
  match a with
  | some s => if s = [] then b else s
  | none => b

/-- Python `str(i)` on an integer. -/
def intToStr (i : Int) : Str := (toString i).data

/-- `message.text or message.caption or ""` (line 127). -/
def message_text (m : TgMessage) : Str :=
  optStrOr m.text (optStrOr m.caption [])

/-- The reply fallback of `build_entries_from_message` (lines 129–146):
the at-most-one `ParsedReputation` it appends when pattern and balancer
extraction produced nothing. -/
def reply_fallback (m : TgMessage) (text : Str) : List ParsedReputation :=
  match m.reply_to_message with
  | none => []
  | some reply =>
    match reply.from_user with
    | none => []
    | some u =>
      if u.is_bot then []
      else
        match pySearch matchSignOnlyAt text with
        | none => []
        | some sign =>
          [⟨normalize_target (optStrOr u.username (intToStr u.id)), _resolve_sentiment sign⟩]

/-- `reputation_detector.py` line 126: `build_entries_from_message`. -/
def build_entries_from_message (m : TgMessage) : List ReputationEntry :=
  let text := message_text m
  let parsed := extract_reputation text
  let parsed := if parsed = [] then reply_fallback m text else parsed
  if parsed = [] then []
  else
    let has_photo := m.photo
    let has_media := m.video || m.document || m.animation
    parsed.map fun item =>
      { target := item.target
        chat_id := m.chat_id
        message_id := m.message_id
        sentiment := item.sentiment
        has_photo := has_photo
        has_media := has_media
        content := text
        author_id := m.from_user.map (·.id)
        author_username := m.from_user.bind (·.username)
        message_date := m.date }

/-- `bot/services/reputation_fetcher.py` line 35: `_detect_media`
(`has_photo` from `photo`; `has_media` from `video`, `document`,
`animation`, `audio`, `voice`, `video_note`). -/
def _detect_media (m : TgMessage) : Bool × Bool :=
  (m.photo, m.video || m.document || m.animation || m.audio || m.voice || m.video_note)

/-- A row of the `reputation_entries` table, as read by `fetch_summary`. -/
structure EntryRow where
  target : Str
  chat_id : Int
  sentiment : Str
  has_photo : Bool
  has_media : Bool
  deriving DecidableEq

/-- A row of the `manual_adjustments` table (`chat_id` is nullable). -/
structure AdjRow where
  target : Str
  chat_id : Option Int
  positive_delta : Int
  negative_delta : Int
  deriving DecidableEq

/-- The `WHERE target = ? [AND chat_id = ?]` filter on entry rows. -/
def entrySelected (tk : Str) (chat : Option Int) (r : EntryRow) : Bool :=
  r.target = tk && (match chat with | none => true | some c => r.chat_id = c)

/-- The `WHERE target = ? [AND chat_id = ?]` filter on adjustment rows
(SQL `NULL = c` is not true). -/
def adjSelected (tk : Str) (chat : Option Int) (r : AdjRow) : Bool :=
  r.target = tk && (match chat with | none => true | some c => r.chat_id = some c)

/-- The raw sentiment counts of `fetch_summary` (`bot/database.py` lines
288–302): positive and negative entry counts for the target/scope. -/
def sentimentCounts (rows : List EntryRow) (tk : Str) (chat : Option Int) : Nat × Nat :=
  let sel := rows.filter (entrySelected tk chat)
  (sel.countP (fun r => r.sentiment = POSITIVE), sel.countP (fun r => r.sentiment = NEGATIVE))

/-- The with-media sentiment counts of the same query (lines 292–293):
entries whose sentiment matches and which have a photo or other media. -/
def mediaCounts (rows : List EntryRow) (tk : Str) (chat : Option Int) : Nat × Nat :=
  let sel := rows.filter (entrySelected tk chat)
  (sel.countP (fun r => r.sentiment = POSITIVE && (r.has_photo || r.has_media)),
   sel.countP (fun r => r.sentiment = NEGATIVE && (r.has_photo || r.has_media)))

/-- The signed manual-adjustment sums of `fetch_summary` (lines 304–314). -/
def adjustmentSums (adjs : List AdjRow) (tk : Str) (chat : Option Int) : Int × Int :=
  let sel := adjs.filter (adjSelected tk chat)
  ((sel.map (·.positive_delta)).sum, (sel.map (·.negative_delta)).sum)

/-- `positive = max(0, positive + pos_adj)` (`bot/database.py` line 316). -/
def fetchSummaryPositive (rows : List EntryRow) (adjs : List AdjRow)
    (target : Str) (chat : Option Int) : Int :=
  let tk := pyLower target
  max 0 ((sentimentCounts rows tk chat).1 + (adjustmentSums adjs tk chat).1)

/-- `negative = max(0, negative + neg_adj)` (`bot/database.py` line 317). -/
def fetchSummaryNegative (rows : List EntryRow) (adjs : List AdjRow)
    (target : Str) (chat : Option Int) : Int :=
  let tk := pyLower target
  max 0 ((sentimentCounts rows tk chat).2 + (adjustmentSums adjs tk chat).2)

/-- The fields of the slotted dataclass `ReputationSummary`
(`bot/services/models.py` lines 35–44). -/
def reputationSummaryFields : List Str :=
  ["target".data, "chat_id".data, "chat_title".data, "positive".data,
   "negative".data, "positive_with_media".data, "negative_with_media".data,
   "details".data]

/-- The keyword arguments `fetch_summary` passes to the `ReputationSummary`
constructor (`bot/database.py` lines 372–382). -/
def fetchSummaryKwargs : List Str :=
  ["target".data, "chat_id".data, "chat_title".data, "positive".data,
   "negative".data, "positive_with_media".data, "negative_with_media".data,
   "details".data, "details_total".data]

/-- Python dataclass `__init__` call check: every passed keyword must be
a declared field and every (defaultless) field must be passed; otherwise
the call raises `TypeError`. -/
def dataclassInitOk (fields kwargs : List Str) : Bool :=
  kwargs.all (fun k => fields.contains k) && fields.all (fun f => kwargs.contains f)

/-- The result value of `ReputationSummary(...)` as `fetch_summary` would
build it (the fields the claims read). -/
structure SummaryVal where
  target : Str
  chat_id : Option Int
  positive : Int
  negative : Int
  positive_with_media : Int
  negative_with_media : Int
  deriving DecidableEq

/-- A raised Python exception, by type name. -/
inductive PyExn where
  | typeError
  deriving DecidableEq

/-- `bot/database.py` line 274: `fetch_summary`, reduced to the state it
reads (entry rows and adjustment rows): computes the clamped totals and
then constructs `ReputationSummary` with the keyword arguments of lines
372–382 — which raises `TypeError` when a keyword is not a field of the
slotted dataclass. -/
def fetch_summary (rows : List EntryRow) (adjs : List AdjRow)
    (target : Str) (chat : Option Int) : Except PyExn SummaryVal :=
  let positive := fetchSummaryPositive rows adjs target chat
  let negative := fetchSummaryNegative rows adjs target chat
  let tk := pyLower target
  let pwm := max 0 (min positive ((mediaCounts rows tk chat).1 : Int))
  let nwm := max 0 (min negative ((mediaCounts rows tk chat).2 : Int))
  if dataclassInitOk reputationSummaryFields fetchSummaryKwargs then
    .ok ⟨target, chat, positive, negative, pwm, nwm⟩
  else
    .error .typeError

/-! ### Lemmas about the ordered result map and `register` -/

/-- The keys of the ordered map, in insertion order. -/
def keysOf (m : SentMap) : List Str := m.map Prod.fst

/-- Fold a list of (target, sentiment) registration events into the map:
an arbitrary interleaving of pattern-pass and balancer-pass calls of
`register` within one `extract_reputation` call. -/
def registerAll (m : SentMap) (events : List (Str × Str)) : SentMap :=
  events.foldl (fun acc e => register acc e.1 e.2) m

/-- The sentiment of the most recent registration event for a target. -/
def lastFor : List (Str × Str) → Str → Option Str
  | [], _ => none
  | e :: es, t =>
    match lastFor es t with
    | some s => some s
    | none => if e.1 = t then some e.2 else none

/-- Deduplication keeping the first occurrence of each element, skipping
elements already seen. -/
def firstDedupAux (seen : List Str) : List Str → List Str
  | [] => []
  | x :: xs => if x ∈ seen then firstDedupAux seen xs else x :: firstDedupAux (x :: seen) xs

/-- Deduplication keeping first occurrences (insertion order of keys). -/
def firstDedup (l : List Str) : List Str := firstDedupAux [] l

theorem alGet_alSet_self (m : SentMap) (t s : Str) : alGet (alSet m t s) t = some s := by
  induction m with
  | nil => simp [alGet, alSet]
  | cons hd tl ih =>
    obtain ⟨k, v⟩ := hd
    by_cases h : k = t
    · simp [alGet, alSet, h]
    · simp [alGet, alSet, h, ih]

theorem alGet_alSet_ne (m : SentMap) (t s u : Str) (h : t ≠ u) :
    alGet (alSet m t s) u = alGet m u := by
  induction m with
  | nil => simp [alGet, alSet, h]
  | cons hd tl ih =>
    obtain ⟨k, v⟩ := hd
    by_cases hk : k = t
    · subst hk
      simp [alGet, alSet, h]
    · simp only [alSet, if_neg hk]
      by_cases hu : k = u
      · simp [alGet, hu]
      · simp [alGet, hu, ih]

theorem alGet_register_self (m : SentMap) (t s : Str) :
    alGet (register m t s) t = some s := by
  unfold register
  by_cases h : alGet m t = some s
  · simp [h]
  · simp [h, alGet_alSet_self]

theorem alGet_register_ne (m : SentMap) (t s u : Str) (h : t ≠ u) :
    alGet (register m t s) u = alGet m u := by
  unfold register
  by_cases hc : alGet m t = some s
  · simp [hc]
  · simp [hc, alGet_alSet_ne m t s u h]

theorem alGet_eq_none_iff (m : SentMap) (t : Str) :
    alGet m t = none ↔ t ∉ keysOf m := by
  induction m with
  | nil => simp [alGet, keysOf]
  | cons hd tl ih =>
    obtain ⟨k, v⟩ := hd
    by_cases h : k = t
    · subst h
      simp [alGet, keysOf]
    · have h1 : alGet ((k, v) :: tl) t = alGet tl t := by simp [alGet, h]
      have h3 : keysOf ((k, v) :: tl) = k :: keysOf tl := rfl
      rw [h1, ih, h3]
      simp [List.mem_cons, Ne.symm h]

theorem keys_alSet (m : SentMap) (t s : Str) :
    keysOf (alSet m t s) = if t ∈ keysOf m then keysOf m else keysOf m ++ [t] := by
  induction m with
  | nil => simp [alSet, keysOf]
  | cons hd tl ih =>
    obtain ⟨k, v⟩ := hd
    by_cases h : k = t
    · subst h
      have he : alSet ((k, v) :: tl) k s = (k, s) :: tl := by simp [alSet]
      have hmem : k ∈ keysOf ((k, v) :: tl) := by simp [keysOf]
      rw [he, if_pos hmem]
      rfl
    · have h1 : alSet ((k, v) :: tl) t s = (k, v) :: alSet tl t s := by simp [alSet, h]
      have h2 : keysOf ((k, v) :: alSet tl t s) = k :: keysOf (alSet tl t s) := rfl
      have h3 : keysOf ((k, v) :: tl) = k :: keysOf tl := rfl
      rw [h1, h2, ih, h3]
      by_cases hm : t ∈ keysOf tl
      · rw [if_pos hm, if_pos (List.mem_cons_of_mem _ hm)]
      · rw [if_neg hm, if_neg (by
          intro hc
          rcases List.mem_cons.1 hc with hc | hc
          · exact h hc.symm
          · exact hm hc)]
        rfl

theorem keys_register (m : SentMap) (t s : Str) :
    keysOf (register m t s) = if t ∈ keysOf m then keysOf m else keysOf m ++ [t] := by
  unfold register
  by_cases hc : alGet m t = some s
  · have ht : t ∈ keysOf m := by
      by_contra hmem
      rw [(alGet_eq_none_iff m t).2 hmem] at hc
      exact Option.noConfusion hc
    simp [hc, ht]
  · simp [hc, keys_alSet]

theorem firstDedupAux_congr (l : List Str) (s1 s2 : List Str)
    (h : ∀ x, x ∈ s1 ↔ x ∈ s2) : firstDedupAux s1 l = firstDedupAux s2 l := by
  induction l generalizing s1 s2 with
  | nil => rfl
  | cons x xs ih =>
    by_cases hx : x ∈ s1
    · simp [firstDedupAux, hx, (h x).1 hx, ih s1 s2 h]
    · have hx2 : x ∉ s2 := fun hh => hx ((h x).2 hh)
      simp only [firstDedupAux, if_neg hx, if_neg hx2]
      refine congrArg _ (ih _ _ fun y => ?_)
      simp [h y]

theorem registerAll_alGet (events : List (Str × Str)) (m : SentMap) (t : Str) :
    alGet (registerAll m events) t =
      match lastFor events t with
      | some s => some s
      | none => alGet m t := by
  induction events generalizing m with
  | nil => rfl
  | cons e es ih =>
    show alGet (registerAll (register m e.1 e.2) es) t = _
    rw [ih (register m e.1 e.2)]
    cases hl : lastFor es t with
    | some s => simp [lastFor, hl]
    | none =>
      by_cases he : e.1 = t
      · subst he
        simp [lastFor, hl, alGet_register_self]
      · simp [lastFor, hl, he, alGet_register_ne m e.1 e.2 t he]

theorem registerAll_keys (events : List (Str × Str)) (m : SentMap) :
    keysOf (registerAll m events) =
      keysOf m ++ firstDedupAux (keysOf m) (events.map Prod.fst) := by
  induction events generalizing m with
  | nil => simp [registerAll, firstDedupAux]
  | cons e es ih =>
    show keysOf (registerAll (register m e.1 e.2) es) = _
    rw [ih (register m e.1 e.2), keys_register]
    by_cases hm : e.1 ∈ keysOf m
    · simp [hm, List.map_cons, firstDedupAux]
    · simp only [if_neg hm, List.map_cons, firstDedupAux, if_neg hm]
      rw [firstDedupAux_congr (es.map Prod.fst) (keysOf m ++ [e.1]) (e.1 :: keysOf m)
        (by intro y; simp [or_comm])]
      simp [List.append_assoc]

/-! ### Lemmas about the token-stream balancer -/

theorem balStep_inv (m0 : SentMap) (st : BalState) (tok : RToken)
    (h1 : st.currentSign = none → st.sentiments = m0)
    (h2 : st.pending ≠ [] → st.currentSign = none) :
    ((balStep st tok).currentSign = none → (balStep st tok).sentiments = m0)
    ∧ ((balStep st tok).pending ≠ [] → (balStep st tok).currentSign = none) := by
  cases tok with
  | sign s =>
    constructor
    · intro hc
      simp [balStep] at hc
    · intro hp
      simp [balStep] at hp
  | mention raw =>
    cases hcy : st.currentSign with
    | some sg =>
      constructor
      · intro hc
        simp [balStep, hcy] at hc
      · intro hp
        exfalso
        simp [balStep, hcy] at hp
        exact Option.noConfusion (hcy ▸ h2 hp)
    | none =>
      by_cases hmem : normalize_target raw ∈ st.pending
      · constructor
        · intro hc
          simp only [balStep, hcy, if_pos hmem]
          exact h1 hcy
        · intro hp
          simp only [balStep, hcy, if_pos hmem]
      · constructor
        · intro hc
          simp only [balStep, hcy, if_neg hmem]
          exact h1 hcy
        · intro hp
          simp only [balStep, hcy, if_neg hmem]

theorem balFold_inv (m0 : SentMap) (toks : List RToken) :
    ∀ st : BalState,
      (st.currentSign = none → st.sentiments = m0) →
      (st.pending ≠ [] → st.currentSign = none) →
      ((toks.foldl balStep st).currentSign = none → (toks.foldl balStep st).sentiments = m0)
      ∧ ((toks.foldl balStep st).pending ≠ [] → (toks.foldl balStep st).currentSign = none) := by
  induction toks with
  | nil => exact fun st h1 h2 => ⟨h1, h2⟩
  | cons tok rest ih =>
    intro st h1 h2
    exact ih (balStep st tok) (balStep_inv m0 st tok h1 h2).1 (balStep_inv m0 st tok h1 h2).2

/-! ### The claims -/

/-- C1: within one `extract_reputation` call, for every interleaving of
registration events (pattern matches and balancer registrations) and
every target, the final map holds the most recently registered sentiment
for that target (a later registration overwrites an earlier one exactly
when the sentiment differs, so the last registered value survives), and
the key order of the map is the order of first registrations. -/
theorem register_merge_rule_spec :
    ∀ (events : List (Str × Str)) (t : Str),
      alGet (registerAll [] events) t = lastFor events t
      ∧ keysOf (registerAll [] events) = firstDedup (events.map Prod.fst)
      ∧ (∀ (m : SentMap) (s : Str), register m t s = m ↔ alGet m t = some s) := by
  intro events t
  refine ⟨?_, ?_, ?_⟩
  · rw [registerAll_alGet]
    cases hl : lastFor events t <;> simp [alGet]
  · rw [registerAll_keys]
    simp [keysOf, firstDedup, registerAll]
  · intro m s
    constructor
    · intro h
      by_cases hc : alGet m t = some s
      · exact hc
      · have h2 : register m t s = alSet m t s := by
          unfold register
          rw [if_neg hc]
        have h3 : alGet (alSet m t s) t = some s := alGet_alSet_self m t s
        rw [← h2, h] at h3
        exact absurd h3 hc
    · intro h
      unfold register
      rw [if_pos h]

/-- C2: on the exact text `+rep @UserOne @UserTwo -rep @UserThree` the
extractor's target-to-sentiment mapping is
{userone ↦ positive, usertwo ↦ positive, userthree ↦ negative} — and
usertwo ends positive although the target-before-sign pattern
(`RE_PATTERNS[1]`) also matches `@UserTwo -rep` with negative sentiment. -/
theorem extract_multi_sign_example :
    (alGet ((extract_reputation "+rep @UserOne @UserTwo -rep @UserThree".data).map
        (fun p => (p.target, p.sentiment))) "userone".data = some POSITIVE
      ∧ alGet ((extract_reputation "+rep @UserOne @UserTwo -rep @UserThree".data).map
        (fun p => (p.target, p.sentiment))) "usertwo".data = some POSITIVE
      ∧ alGet ((extract_reputation "+rep @UserOne @UserTwo -rep @UserThree".data).map
        (fun p => (p.target, p.sentiment))) "userthree".data = some NEGATIVE
      ∧ (extract_reputation "+rep @UserOne @UserTwo -rep @UserThree".data).length = 3)
    ∧ pyFinditer matchP2At "+rep @UserOne @UserTwo -rep @UserThree".data =
        [("-".data, "@UserTwo".data)] := by
  refine ⟨⟨?_, ?_, ?_, ?_⟩, ?_⟩ <;> decide

/-- C3: the sign resolver returns positive exactly when the count of `+`
is at least the count of `-` (ties positive) on every non-empty string of
sign characters; consequently `++rep @UserOne` resolves positive,
`--rep @UserOne` negative and `+--rep @UserOne` negative. -/
theorem resolve_sentiment_majority_spec :
    (∀ sign : Str, sign ≠ [] → (∀ c ∈ sign, c = '+' ∨ c = '-') →
      (sign.count '-' ≤ sign.count '+' → _resolve_sentiment sign = POSITIVE)
      ∧ (sign.count '+' < sign.count '-' → _resolve_sentiment sign = NEGATIVE))
    ∧ extract_reputation "++rep @UserOne".data = [⟨"userone".data, POSITIVE⟩]
    ∧ extract_reputation "--rep @UserOne".data = [⟨"userone".data, NEGATIVE⟩]
    ∧ extract_reputation "+--rep @UserOne".data = [⟨"userone".data, NEGATIVE⟩] := by
  refine ⟨?_, by decide, by decide, by decide⟩
  intro sign hne hchars
  constructor
  · intro h
    simp only [_resolve_sentiment, ge_iff_le, if_pos h]
  · intro h
    simp only [_resolve_sentiment, ge_iff_le, if_neg (Nat.not_le.mpr h)]

/-- Witness for C3 at concrete sign runs. -/
theorem resolve_sentiment_majority_witness :
    _resolve_sentiment ['+', '-', '-'] = NEGATIVE
    ∧ _resolve_sentiment ['+', '-'] = POSITIVE := by
  constructor
  · exact (resolve_sentiment_majority_spec.1 ['+', '-', '-'] (by decide) (by decide)).2
      (by decide)
  · exact (resolve_sentiment_majority_spec.1 ['+', '-'] (by decide) (by decide)).1
      (by decide)

/-- C4: a sign-keyword token assigns its sentiment retroactively to all
mentions pending before it (`@UserOne @UserTwo -rep` maps both to
negative), and for every text, mentions still pending at the end of the
token stream (no trailing sign-keyword token) contribute nothing to the
result map. -/
theorem balancer_trailing_sign_spec :
    (alGet ((extract_reputation "@UserOne @UserTwo -rep".data).map
        (fun p => (p.target, p.sentiment))) "userone".data = some NEGATIVE
      ∧ alGet ((extract_reputation "@UserOne @UserTwo -rep".data).map
        (fun p => (p.target, p.sentiment))) "usertwo".data = some NEGATIVE
      ∧ (extract_reputation "@UserOne @UserTwo -rep".data).length = 2)
    ∧ (∀ (text : Str) (m0 : SentMap),
        ((tokenize text).foldl balStep ⟨m0, [], none⟩).pending ≠ [] →
        ((tokenize text).foldl balStep ⟨m0, [], none⟩).sentiments = m0) := by
  constructor
  · refine ⟨?_, ?_, ?_⟩ <;> decide
  · intro text m0 hp
    have h := balFold_inv m0 (tokenize text) ⟨m0, [], none⟩ (fun _ => rfl)
      (fun hc => absurd rfl hc)
    exact h.1 (h.2 hp)

/-- Witness for C4: a text whose mentions stay pending to the end. -/
theorem balancer_trailing_sign_witness :
    ((tokenize "@UserOne @UserTwo".data).foldl balStep ⟨[], [], none⟩).pending ≠ []
    ∧ ((tokenize "@UserOne @UserTwo".data).foldl balStep ⟨[], [], none⟩).sentiments = [] :=
  ⟨by decide, balancer_trailing_sign_spec.2 "@UserOne @UserTwo".data [] (by decide)⟩

/-- C6: `extract_reputation` is a total function, and on an empty text or
a text with no trigger-keyword substring (case-insensitive) it returns
the empty list. -/
theorem extract_no_keyword_empty :
    ∀ text : Str,
      (text = [] ∨ (KEYWORDS.any fun kw => strContains (pyLower text) kw) = false) →
      extract_reputation text = [] := by
  intro text h
  rcases h with h | h
  · simp [extract_reputation, h]
  · unfold extract_reputation
    by_cases ht : text = []
    · simp [ht]
    · simp [ht, h]

/-- Witness for C6: a non-empty text without any trigger keyword. -/
theorem extract_no_keyword_empty_witness :
    extract_reputation "hello world".data = [] :=
  extract_no_keyword_empty "hello world".data (Or.inr (by decide))

/-- C8: the clamped totals computed by `fetch_summary` are non-negative
for every database state, target and optional chat scope. -/
theorem fetch_summary_clamped_nonneg :
    ∀ (rows : List EntryRow) (adjs : List AdjRow) (target : Str) (chat : Option Int),
      0 ≤ fetchSummaryPositive rows adjs target chat
      ∧ 0 ≤ fetchSummaryNegative rows adjs target chat := by
  intro rows adjs target chat
  exact ⟨le_max_left 0 _, le_max_left 0 _⟩

/-- C9: `fetch_summary` never returns a summary value: the construction
of the slotted dataclass `ReputationSummary` with the extra
`details_total` keyword raises `TypeError` on every input. -/
theorem fetch_summary_always_type_error :
    ∀ (rows : List EntryRow) (adjs : List AdjRow) (target : Str) (chat : Option Int),
      fetch_summary rows adjs target chat = .error .typeError := by
  intro rows adjs target chat
  rfl

/-- C5: the reply fallback fires only when extraction produced nothing;
with a replied-to non-bot user and a sign-only text it yields exactly
one entry whose target is the author's username (or stringified id) and
whose sentiment is the resolved sign; a bot author yields no entries. -/
theorem reply_fallback_spec :
    (∀ m : TgMessage, extract_reputation (message_text m) ≠ [] →
      (build_entries_from_message m).map (fun e => (e.target, e.sentiment))
        = (extract_reputation (message_text m)).map (fun p => (p.target, p.sentiment)))
    ∧ (∀ (m : TgMessage) (reply : TgReply) (u : TgUser),
        extract_reputation (message_text m) = [] →
        m.reply_to_message = some reply →
        reply.from_user = some u →
        ((u.is_bot = true → build_entries_from_message m = [])
        ∧ (pySearch matchSignOnlyAt (message_text m) = none →
            build_entries_from_message m = [])
        ∧ (∀ sign : Str, u.is_bot = false →
            pySearch matchSignOnlyAt (message_text m) = some sign →
            build_entries_from_message m =
              [{ target := normalize_target (optStrOr u.username (intToStr u.id)),
                 chat_id := m.chat_id,
                 message_id := m.message_id,
                 sentiment := _resolve_sentiment sign,
                 has_photo := m.photo,
                 has_media := m.video || m.document || m.animation,
                 content := message_text m,
                 author_id := m.from_user.map (fun v => v.id),
                 author_username := m.from_user.bind (fun v => v.username),
                 message_date := m.date }]))) := by
  constructor
  · intro m h
    simp only [build_entries_from_message, if_neg h, List.map_map]
    rfl
  · intro m reply u h1 h2 h3
    refine ⟨?_, ?_, ?_⟩
    · intro hb
      simp [build_entries_from_message, reply_fallback, h1, h2, h3, hb]
    · intro hs
      simp [build_entries_from_message, reply_fallback, h1, h2, h3, hs]
    · intro sign hb hs
      simp [build_entries_from_message, reply_fallback, h1, h2, h3, hb, hs]

/-- A concrete sign-only reply message: `+реп` replying to TargetUser. -/
def cReplyMsg : TgMessage :=
  { text := some "+реп".data
    caption := none
    reply_to_message := some ⟨some ⟨99, some "TargetUser".data, false⟩⟩
    from_user := some ⟨1, some "author".data, false⟩
    chat_id := -100
    message_id := 42
    photo := false, video := false, document := false, animation := false
    audio := false, voice := false, video_note := false
    date := none }

/-- Witness for C5 at the concrete reply message. -/
theorem reply_fallback_witness :
    build_entries_from_message cReplyMsg =
      [{ target := normalize_target (optStrOr (some "TargetUser".data) (intToStr 99)),
         chat_id := -100,
         message_id := 42,
         sentiment := _resolve_sentiment "+".data,
         has_photo := false,
         has_media := false,
         content := message_text cReplyMsg,
         author_id := some 1,
         author_username := some "author".data,
         message_date := none }] := by
  have h := ((reply_fallback_spec.2 cReplyMsg ⟨some ⟨99, some "TargetUser".data, false⟩⟩
      ⟨99, some "TargetUser".data, false⟩ (by decide) rfl rfl).2.2) "+".data rfl (by decide)
  simpa using h

/-- A message carrying only an audio attachment together with a detected
mention (`+rep @UserOne`). -/
def cMsgAudio : TgMessage :=
  { text := some "+rep @UserOne".data
    caption := none
    reply_to_message := none
    from_user := none
    chat_id := -100
    message_id := 42
    photo := false, video := false, document := false, animation := false
    audio := true, voice := false, video_note := false
    date := none }

/-- The entry `build_entries_from_message` builds for `cMsgAudio`. -/
def cAudioEntry : ReputationEntry :=
  { target := "userone".data
    chat_id := -100
    message_id := 42
    sentiment := POSITIVE
    has_photo := false
    has_media := false
    content := "+rep @UserOne".data
    author_id := none
    author_username := none
    message_date := none }

/-- C7 counterexample: `build_entries_from_message` does not derive
`has_media` from the audio / voice / video-note fields — on a message
whose only attachment is an audio, the built entry has `has_media = false`. -/
theorem entry_builder_media_flags_cex :
    ¬ (∀ (m : TgMessage) (e : ReputationEntry), e ∈ build_entries_from_message m →
        e.has_photo = m.photo
        ∧ e.has_media =
            (m.video || m.document || m.animation || m.audio || m.voice || m.video_note)) := by
  intro h
  have hmem : cAudioEntry ∈ build_entries_from_message cMsgAudio := by decide
  exact absurd (h cMsgAudio cAudioEntry hmem).2 (by decide)

/-- C7 amended: in `build_entries_from_message`, `has_photo` comes from
`photo` and `has_media` from `video`/`document`/`animation` only; the full
seven-field derivation (including audio, voice, video-note) is the one of
the fetcher's `_detect_media`. -/
theorem entry_builder_media_flags_amended :
    (∀ (m : TgMessage) (e : ReputationEntry), e ∈ build_entries_from_message m →
      e.has_photo = m.photo ∧ e.has_media = (m.video || m.document || m.animation))
    ∧ (∀ m : TgMessage, _detect_media m =
        (m.photo, m.video || m.document || m.animation || m.audio || m.voice || m.video_note)) := by
  constructor
  · intro m e he
    simp only [build_entries_from_message] at he
    split at he
    · split at he
      · exact absurd he (List.not_mem_nil e)
      · rcases List.mem_map.1 he with ⟨item, hi, rfl⟩
        exact ⟨rfl, rfl⟩
    · rcases List.mem_map.1 he with ⟨item, hi, rfl⟩
      exact ⟨rfl, rfl⟩
  · intro m
    rfl

/-- Witness for C7's amended claim at the concrete audio message. -/
theorem entry_builder_media_flags_witness :
    cAudioEntry.has_photo = cMsgAudio.photo
    ∧ cAudioEntry.has_media = (cMsgAudio.video || cMsgAudio.document || cMsgAudio.animation) :=
  entry_builder_media_flags_amended.1 cMsgAudio cAudioEntry (by decide)

/-! ### Lemmas for normalizer idempotence -/

theorem tableLower_eq_or_mem (table : List (Char × Char)) (c : Char) :
    tableLower table c = c ∨ (c, tableLower table c) ∈ table := by
  induction table with
  | nil => exact Or.inl rfl
  | cons p rest ih =>
    obtain ⟨u, l⟩ := p
    by_cases h : c = u
    · subst h
      right
      have he : tableLower ((c, l) :: rest) c = l := by simp [tableLower]
      rw [he]
      exact List.mem_cons_self _ _
    · have he : tableLower ((u, l) :: rest) c = tableLower rest c := by simp [tableLower, h]
      rw [he]
      rcases ih with h2 | h2
      · exact Or.inl h2
      · exact Or.inr (List.mem_cons_of_mem _ h2)

/-- Every lower-case character in the table is a fixed point of
`pyCharLower`, is not whitespace and is not `@`. -/
theorem lowerPairs_snd_props :
    ∀ p ∈ lowerPairs, pyCharLower p.2 = p.2 ∧ isSpaceChar p.2 = false ∧ p.2 ≠ '@' := by
  decide

theorem pyCharLower_idem (c : Char) : pyCharLower (pyCharLower c) = pyCharLower c := by
  rcases tableLower_eq_or_mem lowerPairs c with h | h
  · have h2 : pyCharLower c = c := h
    rw [h2, h2]
  · exact (lowerPairs_snd_props _ h).1

theorem wordChar_not_space (c : Char) (h : isWordChar c = true) : isSpaceChar c = false := by
  cases hval : isSpaceChar c
  · rfl
  · exfalso
    simp only [isSpaceChar, Bool.or_eq_true, decide_eq_true_eq] at hval
    rcases hval with ((((h1 | h1) | h1) | h1) | h1) | h1 <;> subst h1 <;>
      exact absurd h (by decide)

theorem wordChar_ne_at (c : Char) (h : isWordChar c = true) : c ≠ '@' := by
  intro hc
  subst hc
  exact absurd h (by decide)

theorem pyCharLower_word_props (c : Char) (h : isWordChar c = true) :
    isSpaceChar (pyCharLower c) = false ∧ pyCharLower c ≠ '@' := by
  rcases tableLower_eq_or_mem lowerPairs c with he | hm
  · have he2 : pyCharLower c = c := he
    rw [he2]
    exact ⟨wordChar_not_space c h, wordChar_ne_at c h⟩
  · exact ⟨(lowerPairs_snd_props _ hm).2.1, (lowerPairs_snd_props _ hm).2.2⟩

theorem dropWhile_eq_self_of_none (p : Char → Bool) (l : Str)
    (h : ∀ c ∈ l, p c = false) : l.dropWhile p = l := by
  cases l with
  | nil => rfl
  | cons a l2 =>
    rw [List.dropWhile_cons, h a (List.mem_cons_self a l2)]
    simp

theorem pyStrip_eq_self (l : Str) (h : ∀ c ∈ l, isSpaceChar c = false) :
    pyStrip l = l := by
  unfold pyStrip
  rw [dropWhile_eq_self_of_none _ _ h,
    dropWhile_eq_self_of_none _ _ (fun c hc => h c (List.mem_reverse.1 hc)),
    List.reverse_reverse]

theorem pyLower_idem (l : Str) : pyLower (pyLower l) = pyLower l := by
  unfold pyLower
  rw [List.map_map]
  congr 1
  funext c
  exact pyCharLower_idem c

theorem normalize_target_word (l : Str) (hall : ∀ c ∈ l, isWordChar c = true) :
    normalize_target l = pyLower l := by
  simp only [normalize_target]
  rw [pyStrip_eq_self l (fun c hc => wordChar_not_space c (hall c hc))]
  cases l with
  | nil => rfl
  | cons a l2 =>
    rw [if_neg]
    simp only [List.head?_cons]
    intro hc
    exact wordChar_ne_at a (hall a (List.mem_cons_self a l2)) (Option.some.inj hc)

theorem normalize_target_at_word (l : Str) (hall : ∀ c ∈ l, isWordChar c = true) :
    normalize_target ('@' :: l) = pyLower l := by
  simp only [normalize_target]
  rw [pyStrip_eq_self ('@' :: l) ?hsp]
  case hsp =>
    intro c hc
    rcases List.mem_cons.1 hc with hc | hc
    · subst hc
      decide
    · exact wordChar_not_space c (hall c hc)
  rw [if_pos (by simp)]
  rfl

theorem normalize_pyLower_word (l : Str) (hne : l ≠ [])
    (hall : ∀ c ∈ l, isWordChar c = true) :
    normalize_target (pyLower l) = pyLower l := by
  simp only [normalize_target]
  rw [pyStrip_eq_self (pyLower l) ?hsp]
  case hsp =>
    intro c hc
    rcases List.mem_map.1 hc with ⟨d, hd, rfl⟩
    exact (pyCharLower_word_props d (hall d hd)).1
  rw [if_neg ?hh]
  case hh =>
    cases l with
    | nil => exact absurd rfl hne
    | cons a l2 =>
      simp only [pyLower, List.map_cons, List.head?_cons]
      intro hc
      exact (pyCharLower_word_props a (hall a (List.mem_cons_self a l2))).2
        (Option.some.inj hc)
  exact pyLower_idem l

/-- A valid target in the sense of the matching constraint:
3–64 word characters, optionally prefixed with a single `@`. -/
def isValidTargetCore (cs : Str) : Bool :=
  3 ≤ cs.length && cs.length ≤ 64 && cs.all isWordChar

def isValidTarget (cs : Str) : Bool :=
  if cs.head? = some '@' then isValidTargetCore cs.tail else isValidTargetCore cs

theorem validTargetCore_parts (cs : Str) (h : isValidTargetCore cs = true) :
    cs ≠ [] ∧ ∀ c ∈ cs, isWordChar c = true := by
  simp only [isValidTargetCore, Bool.and_eq_true, decide_eq_true_eq,
    List.all_eq_true] at h
  refine ⟨?_, h.2⟩
  intro hc
  subst hc
  exact absurd h.1.1 (by decide)

/-- C10: the target normalizer is idempotent on every valid target
(3–64 word characters, optionally prefixed with a single `@`). -/
theorem normalize_target_idempotent :
    ∀ x : Str, isValidTarget x = true →
      normalize_target (normalize_target x) = normalize_target x := by
  intro x hv
  unfold isValidTarget at hv
  by_cases hh : x.head? = some '@'
  · rw [if_pos hh] at hv
    cases x with
    | nil => exact absurd hh (by decide)
    | cons a rest =>
      have ha : a = '@' := Option.some.inj (by simpa using hh)
      subst ha
      obtain ⟨hne, hall⟩ := validTargetCore_parts rest hv
      rw [normalize_target_at_word rest hall]
      exact normalize_pyLower_word rest hne hall
  · rw [if_neg hh] at hv
    obtain ⟨hne, hall⟩ := validTargetCore_parts x hv
    rw [normalize_target_word x hall]
    exact normalize_pyLower_word x hne hall

/-- Witness for C10 at a concrete valid target. -/
theorem normalize_target_idempotent_witness :
    isValidTarget "@UserOne".data = true
    ∧ normalize_target (normalize_target "@UserOne".data) =
        normalize_target "@UserOne".data :=
  ⟨by decide, normalize_target_idempotent "@UserOne".data (by decide)⟩
